import Mathlib

/-!
Verification development for the svelte-headless-table plugin sources in
`src/src/lib/plugins/addResizedColumns.ts`, which contains two plugins:

* `addResizedColumns` — the column-resizing plugin (drag state machine with
  proportional redistribution over grouped columns);
* `useTableFilter` — the hierarchical filtering plugin (`getFilteredRows`,
  `textPrefixFilter`, the `matches` body-cell prop).

The embedding is shallow: JavaScript numbers are modelled as `ℚ`
(the drag arithmetic only uses `+`, `-`, `*`, `/` and `Math.max`),
`Record<string, T>` maps are modelled as `String → Option T`
(`undefined` = `none`) or as association lists where iteration order matters,
and the row/cell classes from `$lib/bodyRows` / `$lib/bodyCells` /
`$lib/headerCells` (which are not part of the given sources) are modelled
from the spec's data-model section.
-/

namespace SHT

/-- JavaScript `String.prototype.toLowerCase`, modelled character-wise
(the plugin only ever compares the results of two such calls). -/
def toLowerCase (s : String) : String :=
  ⟨s.data.map Char.toLower⟩

/-- JavaScript `String.prototype.startsWith`, modelled on the character list. -/
def startsWithStr (s pre : String) : Bool :=
  pre.data.isPrefixOf s.data

/-- JavaScript `Math.max` on two numbers (the plugin always calls it with
arguments that are not NaN under the hypotheses of the claims). -/
def jsMax (a b : ℚ) : ℚ :=
  if a ≤ b then b else a

/-! ## Resizing plugin (`addResizedColumns`) -/

/-- Modelled from the spec: a header cell is either a `FlatHeaderCell`
(exactly one column id) or a `GroupHeaderCell` (an `id` of its own plus the
ordered list `ids` of underlying column ids).  `$lib/headerCells` is not part
of the given sources; the resize logic branches on
`cell instanceof GroupHeaderCell`. -/
inductive HeaderCell where
  | flat (id : String)
  | group (id : String) (ids : List String)

def HeaderCell.id : HeaderCell → String
  | .flat i => i
  | .group i _ => i

/-- The list of column ids affected by a drag on a header cell: the single id
of a flat header, or each id of a group header. -/
def affectedIds : HeaderCell → List String
  | .flat i => [i]
  | .group _ ids => ids

/-- Modelled from the spec: the visual node interface; the plugin only reads
`clientWidth` (the node's rendered width). -/
structure Element where
  clientWidth : ℚ

/-- `Record<string, number>`: a partial map from column id to number;
`none` models a missing key / `undefined`. -/
def NumRecord : Type := String → Option ℚ

/-- `ColumnsWidthState` from `addResizedColumns.ts` lines 35-38. -/
structure ColumnsWidthState where
  current : NumRecord
  start : NumRecord

/-- Modelled from the spec: `sum` from `$lib/utils/math` (not part of the
given sources), applied to `cell.ids.map((id) => start[id])`; per the spec,
`totalStart = Σ start[ij]`, so the defined start widths are summed (the JS
NaN that would arise from an `undefined` entry is outside this model; the
claims about the group formula all assume every start width is defined). -/
def sumOpt (l : List (Option ℚ)) : ℚ :=
  (l.filterMap (fun x => x)).sum

/-- `dragStart` (lines 64-91): records the triggering x-coordinate for
`cell.id` and snapshots `start[id] = current[id]` for the affected ids.
Returns the recorded `dragStartXPosForId[cell.id]` together with the updated
width state (listener registration is not modelled). -/
def dragStart (cell : HeaderCell) (xPos : ℚ) (s : ColumnsWidthState) :
    ℚ × ColumnsWidthState :=
  match cell with
  | .group _ ids =>
    (xPos, { s with start := fun k => if ids.contains k then s.current k else s.start k })
  | .flat i =>
    (xPos, { s with start := fun k => if k = i then s.current k else s.start k })

/-- The body of the `cell.ids.forEach` loop of `dragMove` (lines 103-111),
as a fold step over the current-width record: an id with a defined start
width is written, an id with no start width leaves the record untouched. -/
def groupMoveStep (startRec : NumRecord) (deltaWidth totalStartWidth : ℚ)
    (cur : NumRecord) (i : String) : NumRecord :=
  match startRec i with
  | some startWidth =>
    fun k => if k = i then
      some (jsMax 0 (startWidth + deltaWidth * (startWidth / totalStartWidth)))
    else cur k
  | none => cur

/-- `dragMove` (lines 92-120): `deltaWidth = getDragXPos(event) -
dragStartXPosForId[cell.id]`; for a group header every member id with a
defined start width gets `current[id] = Math.max(0, startWidth + deltaWidth *
(startWidth / totalStartWidth))`; for a flat header `current[id] =
Math.max(0, startWidth + deltaWidth)` when the start width is defined.
`dragStartXPos` is the coordinate recorded by the `dragStart` that initiated
the drag. -/
def dragMove (cell : HeaderCell) (dragStartXPos xPos : ℚ)
    (s : ColumnsWidthState) : ColumnsWidthState :=
  let deltaWidth := xPos - dragStartXPos
  match cell with
  | .group _ ids =>
    let totalStartWidth := sumOpt (ids.map fun i => s.start i)
    { s with current :=
        ids.foldl (groupMoveStep s.start deltaWidth totalStartWidth) s.current }
  | .flat i =>
    match s.start i with
    | some startWidth =>
      { s with current := fun k =>
          if k = i then some (jsMax 0 (startWidth + deltaWidth)) else s.current k }
    | none => s

/-- The body of the `cell.ids.forEach` loop of `dragEnd` (lines 125-133),
as a fold step over the current-width record: an id with an associated node
is overwritten with the node's rendered width, an id without one leaves the
record untouched. -/
def dragEndStep (nodeForId : String → Option Element)
    (cur : NumRecord) (i : String) : NumRecord :=
  match nodeForId i with
  | some node => fun k => if k = i then some node.clientWidth else cur k
  | none => cur

/-- `dragEnd` (lines 121-150): for each affected id whose node association
`nodeForId[id]` is present, overwrite `current[id]` with the node's
`clientWidth`; ids with no associated node are left as they are
(listener removal is not modelled). -/
def dragEnd (cell : HeaderCell) (nodeForId : String → Option Element)
    (s : ColumnsWidthState) : ColumnsWidthState :=
  match cell with
  | .group _ ids =>
    { s with current := ids.foldl (dragEndStep nodeForId) s.current }
  | .flat i =>
    match nodeForId i with
    | some node =>
      { s with current := fun k => if k = i then some node.clientWidth else s.current k }
    | none => s

/-- The unclamped new width of one member column of a resized group, written
as the spec words it: `wi + d*wi/S` "before the zero floor". -/
def specUnclampedWidth (w S d : ℚ) : ℚ :=
  w + d * w / S

/-! ## Filtering plugin (`useTableFilter`) -/

/-- A body cell: either a `DataBodyCell` carrying a column id and its
extracted value, or a non-data (placeholder/display) cell.  Modelled from the
spec: `$lib/bodyCells` is not part of the given sources; `getFilteredRows`
only tests `cell instanceof DataBodyCell`, reads `cell.id` and `cell.value`,
and the raw value is cast to text (`String(value)`), so the value is
modelled as the resulting string. -/
inductive BodyCell where
  | data (id : String) (value : String)
  | display (id : String)
deriving DecidableEq

def BodyCell.id : BodyCell → String
  | .data i _ => i
  | .display i => i

/-- Modelled from the spec: a `BodyRow` has a stable id, a complete map
`cellForId` from column id to cell (modelled as the ordered list of its
values, matching `Object.values(row.cellForId)`), the ordered list `cells`
of currently-visible cells, and an optional list of sub-rows
(`$lib/bodyRows` is not part of the given sources). -/
inductive BodyRow where
  | mk (id : String) (cellForId : List BodyCell) (cells : List BodyCell)
      (subRows : Option (List BodyRow))

def BodyRow.id : BodyRow → String
  | .mk i _ _ _ => i

def BodyRow.cellForId : BodyRow → List BodyCell
  | .mk _ cfi _ _ => cfi

def BodyRow.cells : BodyRow → List BodyCell
  | .mk _ _ cs _ => cs

def BodyRow.subRows : BodyRow → Option (List BodyRow)
  | .mk _ _ _ sub => sub

/-- Modelled from the spec: `DataBodyCell.rowColId()` from `$lib/bodyCells`
(not part of the given sources) — the composite cell key, row id plus column
id, globally unique per (row, column) pair. -/
def rowColId (rowId columnId : String) : String × String :=
  (rowId, columnId)

/-- The internal per-cell match map `tableCellMatches`, keyed by the
composite cell key.  The source updates it with
`{...$tableCellMatches, [cell.rowColId()]: matches}` (insert-or-overwrite);
modelled as an association list updated by consing, looked up front-first. -/
abbrev MatchMap : Type := List ((String × String) × Bool)

/-- `TableFilterColumnOptions` (lines 208-212). -/
structure TableFilterColumnOptions where
  exclude : Option Bool
  getFilterValue : Option (String → String)

/-- `textPrefixFilter` (lines 343-348): empty filter value matches
everything, otherwise case-insensitive prefix match. -/
def textPrefixFilter (filterValue value : String) : Bool :=
  if filterValue = "" then true
  else startsWithStr (toLowerCase value) (toLowerCase filterValue)

/-- Modelled from the spec: `getCloned(row, { subRows: filteredSubRows })`
from `$lib/utils/clone` (not part of the given sources): a structural clone
of the row with `subRows` overridden and all other fields preserved. -/
def getCloned (row : BodyRow) (newSubRows : List BodyRow) : BodyRow :=
  match row with
  | .mk i cfi cs _ => .mk i cfi cs (some newSubRows)

/-- The per-cell evaluation inside `getFilteredRows` (lines 262-284): the
body of `Object.values(row.cellForId).map((cell) => ...)`.  Returns the
cell's match flag together with the updated match map; the non-matching
early returns (`exclude`, hidden without `includeHiddenColumns`, non-data
cell) record nothing. -/
def cellMatchEval (fn : String → String → Bool) (includeHiddenColumns : Bool)
    (columnOptions : String → Option TableFilterColumnOptions)
    (filterValue : String) (rowId : String) (rowCells : List BodyCell)
    (cell : BodyCell) (tableCellMatches : MatchMap) : Bool × MatchMap :=
  let options := columnOptions cell.id
  if options.bind TableFilterColumnOptions.exclude = some true then
    (false, tableCellMatches)
  else
    let isHidden := (rowCells.find? fun c => c.id == cell.id).isNone
    if isHidden && !includeHiddenColumns then
      (false, tableCellMatches)
    else
      match cell with
      | .display _ => (false, tableCellMatches)
      | .data cid v =>
        let value :=
          match options.bind TableFilterColumnOptions.getFilterValue with
          | some getFilterValue => getFilterValue v
          | none => v
        let cellMatches := fn filterValue value
        (cellMatches, (rowColId rowId cid, cellMatches) :: tableCellMatches)

/-- The `rowCellMatches` array of one row (line 262): evaluates every cell of
`cellForId` in order, threading the match map. -/
def rowCellMatchesList (fn : String → String → Bool)
    (includeHiddenColumns : Bool)
    (columnOptions : String → Option TableFilterColumnOptions)
    (filterValue : String) (rowId : String) (rowCells : List BodyCell) :
    List BodyCell → MatchMap → List Bool × MatchMap
  | [], m => ([], m)
  | c :: cs, m =>
    let (b, m1) := cellMatchEval fn includeHiddenColumns columnOptions
      filterValue rowId rowCells c m
    let (bs, m2) := rowCellMatchesList fn includeHiddenColumns columnOptions
      filterValue rowId rowCells cs m1
    (b :: bs, m2)

/-- The `.filter` predicate of `getFilteredRows` (lines 257-287): a row with
remaining sub-rows is kept outright (`(row.subRows?.length ?? 0) !== 0`);
otherwise its cells are evaluated and it is kept iff any cell matches
(`rowCellMatches.includes(true)`). -/
def rowFilterPred (fn : String → String → Bool) (includeHiddenColumns : Bool)
    (columnOptions : String → Option TableFilterColumnOptions)
    (filterValue : String) (row : BodyRow) (m : MatchMap) : Bool × MatchMap :=
  if (match row.subRows with | some l => l.length | none => 0) ≠ 0 then
    (true, m)
  else
    let (rowCellMatches, m1) := rowCellMatchesList fn includeHiddenColumns
      columnOptions filterValue row.id row.cells row.cellForId m
    (rowCellMatches.contains true, m1)

/-- The `.filter(...)` pass of `getFilteredRows`, applied to the rows
produced by the `.map(...)` pass, threading the match map in element order
as JavaScript does. -/
def filterPhase (fn : String → String → Bool) (includeHiddenColumns : Bool)
    (columnOptions : String → Option TableFilterColumnOptions)
    (filterValue : String) : List BodyRow → MatchMap → List BodyRow × MatchMap
  | [], m => ([], m)
  | r :: rs, m =>
    let (keep, m1) := rowFilterPred fn includeHiddenColumns columnOptions
      filterValue r m
    let (rs1, m2) := filterPhase fn includeHiddenColumns columnOptions
      filterValue rs m1
    (if keep then r :: rs1 else rs1, m2)

mutual
/-- The `.map(...)` pass of `getFilteredRows` (lines 241-256), applied to
every row of the list in order. -/
def mapSubRows (fn : String → String → Bool) (includeHiddenColumns : Bool)
    (columnOptions : String → Option TableFilterColumnOptions)
    (filterValue : String) : List BodyRow → MatchMap → List BodyRow × MatchMap
  | [], m => ([], m)
  | r :: rs, m =>
    let (r1, m1) := mapRowSubRows fn includeHiddenColumns columnOptions
      filterValue r m
    let (rs1, m2) := mapSubRows fn includeHiddenColumns columnOptions
      filterValue rs m1
    (r1 :: rs1, m2)

/-- The body of the `.map` lambda (lines 243-256): a row without `subRows`
is returned as is; otherwise the sub-rows are filtered recursively and the
row is cloned with the filtered sub-rows.  The recursive
`getFilteredRows(subRows, ...)` call is inlined here (map pass then filter
pass) so that the recursion is structural; the lemma
`mapRowSubRows_eq_getFilteredRows` below recovers the source's shape. -/
def mapRowSubRows (fn : String → String → Bool) (includeHiddenColumns : Bool)
    (columnOptions : String → Option TableFilterColumnOptions)
    (filterValue : String) (row : BodyRow) (m : MatchMap) : BodyRow × MatchMap :=
  match row with
  | .mk i cfi cs none => (.mk i cfi cs none, m)
  | .mk i cfi cs (some sub) =>
    let (mapped, m1) := mapSubRows fn includeHiddenColumns columnOptions
      filterValue sub m
    let (filteredSubRows, m2) := filterPhase fn includeHiddenColumns
      columnOptions filterValue mapped m1
    (getCloned (.mk i cfi cs (some sub)) filteredSubRows, m2)
end

/-- `getFilteredRows` (lines 235-289): `rows.map(...).filter(...)`, with the
match-map side effects threaded in JavaScript evaluation order (all `.map`
recursion effects first, then the `.filter` cell evaluations of this
level). -/
def getFilteredRows (fn : String → String → Bool) (includeHiddenColumns : Bool)
    (columnOptions : String → Option TableFilterColumnOptions)
    (filterValue : String) (rows : List BodyRow) (m : MatchMap) :
    List BodyRow × MatchMap :=
  let (mapped, m1) := mapSubRows fn includeHiddenColumns columnOptions
    filterValue rows m
  filterPhase fn includeHiddenColumns columnOptions filterValue mapped m1

/-- The recomputation performed by `deriveRows` (lines 310-322): the match
map is reset to `{}` and `getFilteredRows` is run on the incoming rows. -/
def filterRecompute (fn : String → String → Bool)
    (includeHiddenColumns : Bool)
    (columnOptions : String → Option TableFilterColumnOptions)
    (filterValue : String) (rows : List BodyRow) : List BodyRow × MatchMap :=
  getFilteredRows fn includeHiddenColumns columnOptions filterValue rows []

/-- The `matches` prop of the `tbody.tr.td` hook (lines 327-339):
`$filterValue !== '' && ($tableCellMatches[cell.rowColId()] ?? false)`. -/
def matchesProp (filterValue : String) (tableCellMatches : MatchMap)
    (key : String × String) : Bool :=
  !(filterValue == "") && ((tableCellMatches.lookup key).getD false)

/-! ### Derived notions used to state the claims -/

/-- A cell is evaluable (reaches the predicate call in lines 262-278):
not excluded by its column options, visible in the row or allowed by
`includeHiddenColumns`, and a value-bearing `DataBodyCell`. -/
def evaluableCell (includeHiddenColumns : Bool)
    (columnOptions : String → Option TableFilterColumnOptions)
    (rowCells : List BodyCell) (cell : BodyCell) : Bool :=
  if (columnOptions cell.id).bind TableFilterColumnOptions.exclude = some true then
    false
  else if (rowCells.find? fun c => c.id == cell.id).isNone && !includeHiddenColumns then
    false
  else
    match cell with
    | .data _ _ => true
    | .display _ => false

/-- The value a data cell contributes to the predicate: the raw value, run
through the column's `getFilterValue` when provided (lines 274-277). -/
def extractedValue (columnOptions : String → Option TableFilterColumnOptions) :
    BodyCell → String
  | .data i v =>
    (match (columnOptions i).bind TableFilterColumnOptions.getFilterValue with
     | some g => g v
     | none => v)
  | .display _ => ""

/-- A cell passes the filter: it is evaluable and the predicate accepts its
extracted value. -/
def cellPasses (fn : String → String → Bool) (includeHiddenColumns : Bool)
    (columnOptions : String → Option TableFilterColumnOptions)
    (filterValue : String) (rowCells : List BodyCell) (cell : BodyCell) : Bool :=
  evaluableCell includeHiddenColumns columnOptions rowCells cell
    && fn filterValue (extractedValue columnOptions cell)

/-- A row matches on its own cells: some cell of `cellForId` passes
(the `rowCellMatches.includes(true)` decision of line 286). -/
def rowSelfMatches (fn : String → String → Bool) (includeHiddenColumns : Bool)
    (columnOptions : String → Option TableFilterColumnOptions)
    (filterValue : String) (row : BodyRow) : Bool :=
  (row.cellForId.map fun c =>
    cellPasses fn includeHiddenColumns columnOptions filterValue row.cells c).contains true

/-- The pure keep decision of the `.filter` predicate on one (already
mapped) row. -/
def rowKeepDecision (fn : String → String → Bool) (includeHiddenColumns : Bool)
    (columnOptions : String → Option TableFilterColumnOptions)
    (filterValue : String) (row : BodyRow) : Bool :=
  if (match row.subRows with | some l => l.length | none => 0) ≠ 0 then true
  else rowSelfMatches fn includeHiddenColumns columnOptions filterValue row

mutual
/-- A row or some descendant of it has a passing cell. -/
def rowOrDescMatches (fn : String → String → Bool) (includeHiddenColumns : Bool)
    (columnOptions : String → Option TableFilterColumnOptions)
    (filterValue : String) : BodyRow → Bool
  | .mk i cfi cs none =>
    rowSelfMatches fn includeHiddenColumns columnOptions filterValue (.mk i cfi cs none)
  | .mk i cfi cs (some sub) =>
    rowSelfMatches fn includeHiddenColumns columnOptions filterValue
      (.mk i cfi cs (some sub))
    || anyRowMatches fn includeHiddenColumns columnOptions filterValue sub

/-- Some row of the forest has a passing cell (at any depth). -/
def anyRowMatches (fn : String → String → Bool) (includeHiddenColumns : Bool)
    (columnOptions : String → Option TableFilterColumnOptions)
    (filterValue : String) : List BodyRow → Bool
  | [] => false
  | r :: rs =>
    rowOrDescMatches fn includeHiddenColumns columnOptions filterValue r
    || anyRowMatches fn includeHiddenColumns columnOptions filterValue rs
end

mutual
/-- Every row of the forest, at every depth, satisfies `p`. -/
def forestAll (p : BodyRow → Bool) : List BodyRow → Bool
  | [] => true
  | r :: rs => rowForestAll p r && forestAll p rs

/-- The row and every row of its subtree satisfy `p`. -/
def rowForestAll (p : BodyRow → Bool) : BodyRow → Bool
  | .mk i cfi cs none => p (.mk i cfi cs none)
  | .mk i cfi cs (some sub) => p (.mk i cfi cs (some sub)) && forestAll p sub
end

/-- A row has at least one evaluable cell. -/
def hasEvaluableCell (includeHiddenColumns : Bool)
    (columnOptions : String → Option TableFilterColumnOptions)
    (row : BodyRow) : Bool :=
  row.cellForId.any fun c =>
    evaluableCell includeHiddenColumns columnOptions row.cells c

mutual
/-- Every row of the forest that sits in leaf position (no sub-row list, or
an empty one) has at least one evaluable cell; rows with a non-empty
sub-row list are checked recursively. -/
def allLeavesEvaluable (includeHiddenColumns : Bool)
    (columnOptions : String → Option TableFilterColumnOptions) :
    List BodyRow → Bool
  | [] => true
  | r :: rs =>
    rowLeavesEvaluable includeHiddenColumns columnOptions r
    && allLeavesEvaluable includeHiddenColumns columnOptions rs

def rowLeavesEvaluable (includeHiddenColumns : Bool)
    (columnOptions : String → Option TableFilterColumnOptions) :
    BodyRow → Bool
  | .mk i cfi cs none =>
    hasEvaluableCell includeHiddenColumns columnOptions (.mk i cfi cs none)
  | .mk i cfi cs (some []) =>
    hasEvaluableCell includeHiddenColumns columnOptions (.mk i cfi cs (some []))
  | .mk _ _ _ (some (x :: xs)) =>
    allLeavesEvaluable includeHiddenColumns columnOptions (x :: xs)
end

/-- The everywhere-undefined column options (no column configured). -/
def noColumnOptions : String → Option TableFilterColumnOptions :=
  fun _ => none

/-! ### Concrete instances used by witnesses and counterexamples -/

/-- Width state for the C1 witness: group members `a` (start 10) and `b`
(start 30). -/
def sC1 : ColumnsWidthState :=
  { current := fun _ => none,
    start := fun i => if i = "a" then some 10 else if i = "b" then some 30 else none }

def wC1 : String → ℚ :=
  fun i => if i = "a" then 10 else 30

/-- Width state for the C5 witness: the spec's example, starting widths 100
and 200. -/
def sC5 : ColumnsWidthState :=
  { current := fun _ => none,
    start := fun i => if i = "a" then some 100 else if i = "b" then some 200 else none }

def wC5 : String → ℚ :=
  fun i => if i = "a" then 100 else 200

/-- Width state for the C6 witness: column `a` currently 5 pixels wide. -/
def sC6 : ColumnsWidthState :=
  { current := fun k => if k = "a" then some 5 else none,
    start := fun k => if k = "a" then some 5 else none }

/-- Node associations for the C7 witness: only column `a` has a mounted
node, 42 pixels wide. -/
def nodesC7 : String → Option Element :=
  fun k => if k = "a" then some (Element.mk 42) else none

def sC7 : ColumnsWidthState :=
  { current := fun k => if k = "b" then some 7 else none,
    start := fun _ => none }

/-- C2 counterexample row: its only cell sits on a column that is not
visible, so with the default configuration the empty filter removes it. -/
def rowC2x : BodyRow :=
  .mk "r1" [.data "name" "Alice"] [] none

def rowC2wChild : BodyRow :=
  .mk "c" [.data "n" "y"] [.data "n" "y"] none

/-- C2 witness rows: a parent with one child, and a row with an empty
sub-row list; every leaf-position row has an evaluable cell. -/
def rowsC2w : List BodyRow :=
  [.mk "p" [.data "n" "x"] [.data "n" "x"] (some [rowC2wChild]),
   .mk "q" [.data "n" "z"] [.data "n" "z"] (some [])]

def rowC3child : BodyRow :=
  .mk "c" [.data "name" "Alice"] [.data "name" "Alice"] none

/-- C3 counterexample row: a parent whose child matches `"al"`; the parent
is kept through the child and its own cells are never evaluated. -/
def rowC3parent : BodyRow :=
  .mk "p" [.data "name" "Zed"] [.data "name" "Zed"] (some [rowC3child])

/-- C3 witness row: a leaf whose cell does not match, so the row is
excluded, yet its match entry is recorded. -/
def rowC3w : BodyRow :=
  .mk "r" [.data "n" "Bob"] [.data "n" "Bob"] none

def rowC4child : BodyRow :=
  .mk "c4c" [.data "name" "Alice"] [.data "name" "Alice"] none

/-- C4 witness row: a parent with no matching own cell but a matching
descendant. -/
def rowC4parent : BodyRow :=
  .mk "c4p" [.data "name" "Zed"] [.data "name" "Zed"] (some [rowC4child])

def rowC8child : BodyRow :=
  .mk "c8c" [.data "a" "Al"] [.data "a" "Al"] none

/-- C8 counterexample row: the parent's only matching own cell is hidden,
but a descendant matches, so the row is kept even with
`includeHiddenColumns = false`. -/
def rowC8parent : BodyRow :=
  .mk "c8p" [.data "a" "Alice"] [] (some [rowC8child])

/-- C8 witness row: a leaf whose only matching cell (`a`, value `Alice`) is
hidden; cell `b` is visible but does not match `"al"`. -/
def rowC8w : BodyRow :=
  .mk "c8w" [.data "a" "Alice", .data "b" "Bob"] [.data "b" "Bob"] none

def rowC10child : BodyRow :=
  .mk "c10c" [.data "n" "Bob"] [.data "n" "Bob"] none

/-- C10 witness row: its only child does not match `"al"`, so the sub-rows
are all removed, but its own cell matches. -/
def rowC10parent : BodyRow :=
  .mk "c10p" [.data "n" "Alf"] [.data "n" "Alf"] (some [rowC10child])

end SHT

namespace SHT

/-! ## Helper lemmas: resizing -/

theorem jsMax_eq_max (a b : ℚ) : jsMax a b = max a b := by
  simp [jsMax, max_def]

theorem jsMax_zero_nonneg (b : ℚ) : 0 ≤ jsMax 0 b := by
  unfold jsMax
  split
  · assumption
  · exact le_rfl

theorem sumOpt_all_some (ids : List String) (g : String → Option ℚ)
    (w : String → ℚ) (h : ∀ i ∈ ids, g i = some (w i)) :
    sumOpt (ids.map fun i => g i) = (ids.map w).sum := by
  induction ids with
  | nil => rfl
  | cons a as ih =>
    have ha := h a (List.mem_cons_self a as)
    have ih' := ih fun i hi => h i (List.mem_cons_of_mem _ hi)
    simp only [List.map_cons, sumOpt, List.filterMap_cons, ha, List.sum_cons] at *
    rw [ih']

/-- Pointwise description of a fold whose step writes the value `v i`
(when defined) at key `i` and otherwise leaves the record untouched. -/
theorem foldl_write_lookup (step : NumRecord → String → NumRecord)
    (v : String → Option ℚ)
    (hstep : ∀ cur i k, step cur i k = if k = i then (v i).elim (cur k) some else cur k)
    (ids : List String) (init : NumRecord) (k : String) :
    ids.foldl step init k
      = if k ∈ ids then (v k).elim (init k) some else init k := by
  induction ids generalizing init with
  | nil => simp
  | cons a as ih =>
    simp only [List.foldl_cons]
    rw [ih]
    by_cases hk : k ∈ as
    · rw [if_pos hk, if_pos (List.mem_cons_of_mem a hk)]
      cases hvk : v k with
      | some q => simp
      | none =>
        simp only [Option.elim]
        rw [hstep]
        by_cases hka : k = a
        · rw [if_pos hka, ← hka, hvk]
          rfl
        · rw [if_neg hka]
    · by_cases hka : k = a
      · subst hka
        rw [if_neg hk, if_pos (List.mem_cons_self k as), hstep, if_pos rfl]
      · rw [if_neg hk, if_neg (by simp [List.mem_cons, hka, hk]), hstep, if_neg hka]

theorem groupMoveStep_eq (startRec : NumRecord) (dW T : ℚ)
    (cur : NumRecord) (i k : String) :
    groupMoveStep startRec dW T cur i k
      = if k = i then
          ((startRec i).map fun sw => jsMax 0 (sw + dW * (sw / T))).elim (cur k) some
        else cur k := by
  cases h : startRec i with
  | none => simp [groupMoveStep, h]
  | some sw => simp [groupMoveStep, h]

theorem groupMoveStep_foldl (startRec : NumRecord) (dW T : ℚ)
    (ids : List String) (init : NumRecord) (k : String) :
    ids.foldl (groupMoveStep startRec dW T) init k
      = if k ∈ ids then
          ((startRec k).map fun sw => jsMax 0 (sw + dW * (sw / T))).elim (init k) some
        else init k :=
  foldl_write_lookup (groupMoveStep startRec dW T)
    (fun i => (startRec i).map fun sw => jsMax 0 (sw + dW * (sw / T)))
    (fun cur i k => groupMoveStep_eq startRec dW T cur i k) ids init k

theorem dragEndStep_eq (nodeRec : String → Option Element)
    (cur : NumRecord) (i k : String) :
    dragEndStep nodeRec cur i k
      = if k = i then ((nodeRec i).map Element.clientWidth).elim (cur k) some
        else cur k := by
  cases h : nodeRec i with
  | none => simp [dragEndStep, h]
  | some node => simp [dragEndStep, h]

theorem dragEndStep_foldl (nodeRec : String → Option Element)
    (ids : List String) (init : NumRecord) (k : String) :
    ids.foldl (dragEndStep nodeRec) init k
      = if k ∈ ids then ((nodeRec k).map Element.clientWidth).elim (init k) some
        else init k :=
  foldl_write_lookup (dragEndStep nodeRec)
    (fun i => (nodeRec i).map Element.clientWidth)
    (fun cur i k => dragEndStep_eq nodeRec cur i k) ids init k

theorem sum_map_unclamped (d S : ℚ) (l : List ℚ) :
    (l.map fun a => a + d * a / S).sum = l.sum + d * l.sum / S := by
  induction l with
  | nil => simp
  | cons a as ih =>
    simp only [List.map_cons, List.sum_cons, ih]
    ring

/-! ## Claim theorems: resizing -/

theorem dragMove_group_current (gid : String) (ids : List String)
    (dragStartXPos xPos : ℚ) (s : ColumnsWidthState) (w : String → ℚ)
    (hdef : ∀ i ∈ ids, s.start i = some (w i)) :
    ∀ i ∈ ids,
      (dragMove (.group gid ids) dragStartXPos xPos s).current i
        = some (max 0 (w i + (xPos - dragStartXPos) * w i / (ids.map w).sum)) := by
  have hT : sumOpt (ids.map fun i => s.start i) = (ids.map w).sum :=
    sumOpt_all_some ids _ w hdef
  intro i hi
  simp only [dragMove]
  rw [groupMoveStep_foldl, if_pos hi, hdef i hi]
  simp only [Option.map_some', Option.elim]
  rw [hT, jsMax_eq_max, mul_div_assoc]

theorem dragMove_group_untouched (gid : String) (ids : List String)
    (dragStartXPos xPos : ℚ) (s : ColumnsWidthState) :
    ∀ i ∈ ids, s.start i = none →
      (dragMove (.group gid ids) dragStartXPos xPos s).current i
        = s.current i := by
  intro i hi hnone
  simp only [dragMove]
  rw [groupMoveStep_foldl, if_pos hi, hnone]
  simp only [Option.map_none', Option.elim]

/-- C1: for a group-header drag on a group whose start widths are all
defined (`w1..wk`, summing to `S`), a drag-move with horizontal delta
`d = xPos - dragStartXPos` sets each member column's current width to
`max 0 (wi + d * wi / S)`, and any member id whose start width is undefined
is left untouched. -/
theorem C1_group_drag_proportional (gid : String) (ids : List String)
    (dragStartXPos xPos : ℚ) (s : ColumnsWidthState) (w : String → ℚ)
    (hdef : ∀ i ∈ ids, s.start i = some (w i)) :
    (∀ i ∈ ids,
      (dragMove (.group gid ids) dragStartXPos xPos s).current i
        = some (max 0 (w i + (xPos - dragStartXPos) * w i / (ids.map w).sum)))
    ∧ (∀ i ∈ ids, s.start i = none →
      (dragMove (.group gid ids) dragStartXPos xPos s).current i = s.current i) :=
  ⟨dragMove_group_current gid ids dragStartXPos xPos s w hdef,
   dragMove_group_untouched gid ids dragStartXPos xPos s⟩

theorem C1_witness :
    (dragMove (.group "g" ["a", "b"]) 0 8 sC1).current "a" = some 12
    ∧ (dragMove (.group "g" ["a", "b"]) 0 8 sC1).current "b" = some 36 := by
  have h := (C1_group_drag_proportional "g" ["a", "b"] 0 8 sC1 wC1
    (by intro i hi; simp only [List.mem_cons, List.mem_singleton] at hi
        rcases hi with rfl | rfl | h
        · rfl
        · rfl
        · cases h)).1
  have ha := h "a" (by simp)
  have hb := h "b" (by simp)
  rw [ha, hb, show wC1 "a" = 10 from rfl, show wC1 "b" = 30 from rfl,
    show List.map wC1 ["a", "b"] = [(10 : ℚ), 30] from rfl]
  norm_num

/-- C5: for a group drag-move with all start widths defined and positive,
the sum of the unclamped new widths `wi + d * wi / S` equals `S + d`, and
the drag-move writes exactly the zero-floored versions of those widths. -/
theorem C5_group_resize_sum (gid : String) (ids : List String)
    (dragStartXPos xPos : ℚ) (s : ColumnsWidthState) (w : String → ℚ)
    (hdef : ∀ i ∈ ids, s.start i = some (w i))
    (hpos : ∀ i ∈ ids, 0 < w i) (hne : ids ≠ []) :
    ((ids.map fun i =>
        specUnclampedWidth (w i) ((ids.map w).sum) (xPos - dragStartXPos)).sum
      = (ids.map w).sum + (xPos - dragStartXPos))
    ∧ (∀ i ∈ ids,
      (dragMove (.group gid ids) dragStartXPos xPos s).current i
        = some (max 0
            (specUnclampedWidth (w i) ((ids.map w).sum) (xPos - dragStartXPos)))) := by
  have hS : 0 < (ids.map w).sum := by
    apply List.sum_pos
    · intro q hq
      simp only [List.mem_map] at hq
      obtain ⟨i, hi, rfl⟩ := hq
      exact hpos i hi
    · intro hmap
      exact hne (List.map_eq_nil_iff.mp hmap)
  constructor
  · unfold specUnclampedWidth
    rw [show (fun i => w i + (xPos - dragStartXPos) * w i / (ids.map w).sum)
          = ((fun a => a + (xPos - dragStartXPos) * a / (ids.map w).sum) ∘ w) from rfl,
      ← List.map_map, sum_map_unclamped, mul_div_assoc, div_self (ne_of_gt hS), mul_one]
  · intro i hi
    rw [dragMove_group_current gid ids dragStartXPos xPos s w hdef i hi]
    rfl

theorem C5_witness :
    (dragMove (.group "g" ["a", "b"]) 0 30 sC5).current "a" = some 110
    ∧ (dragMove (.group "g" ["a", "b"]) 0 30 sC5).current "b" = some 220
    ∧ ((["a", "b"].map fun i =>
          specUnclampedWidth (wC5 i) ((["a", "b"].map wC5).sum) (30 - 0)).sum
        = (["a", "b"].map wC5).sum + (30 - 0)) := by
  have h := C5_group_resize_sum "g" ["a", "b"] 0 30 sC5 wC5
    (by intro i hi; simp only [List.mem_cons, List.mem_singleton] at hi
        rcases hi with rfl | rfl | h
        · rfl
        · rfl
        · cases h)
    (by intro i hi; simp only [List.mem_cons, List.mem_singleton] at hi
        rcases hi with rfl | rfl | h
        · rw [show wC5 "a" = 100 from rfl]; norm_num
        · rw [show wC5 "b" = 200 from rfl]; norm_num
        · cases h)
    (by simp)
  refine ⟨?_, ?_, h.1⟩
  · rw [h.2 "a" (by simp), show wC5 "a" = 100 from rfl,
      show List.map wC5 ["a", "b"] = [(100 : ℚ), 200] from rfl]
    norm_num [specUnclampedWidth]
  · rw [h.2 "b" (by simp), show wC5 "b" = 200 from rfl,
      show List.map wC5 ["a", "b"] = [(100 : ℚ), 200] from rfl]
    norm_num [specUnclampedWidth]

/-- C6: a drag-move never makes any entry of the current-width map
negative: if every defined current width is nonnegative before the move,
every defined current width after the move is nonnegative, for any header
cell and any delta (the newly written widths are zero-floored
unconditionally). -/
theorem C6_drag_width_nonneg (cell : HeaderCell) (dragStartXPos xPos : ℚ)
    (s : ColumnsWidthState)
    (h : ∀ k q, s.current k = some q → 0 ≤ q) :
    ∀ k q, (dragMove cell dragStartXPos xPos s).current k = some q → 0 ≤ q := by
  intro k q hk
  cases cell with
  | flat i =>
    cases hs : s.start i with
    | none =>
      simp only [dragMove, hs] at hk
      exact h k q hk
    | some sw =>
      simp only [dragMove, hs] at hk
      by_cases hki : k = i
      · rw [if_pos hki] at hk
        rw [← Option.some_inj.mp hk]
        exact jsMax_zero_nonneg _
      · rw [if_neg hki] at hk
        exact h k q hk
  | group gid ids =>
    simp only [dragMove] at hk
    rw [groupMoveStep_foldl] at hk
    by_cases hki : k ∈ ids
    · rw [if_pos hki] at hk
      cases hsk : s.start k with
      | none =>
        rw [hsk] at hk
        simp only [Option.map_none', Option.elim] at hk
        exact h k q hk
      | some sw =>
        rw [hsk] at hk
        simp only [Option.map_some', Option.elim] at hk
        rw [← Option.some_inj.mp hk]
        exact jsMax_zero_nonneg _
    · rw [if_neg hki] at hk
      exact h k q hk

theorem C6_witness :
    0 ≤ ((dragMove (.flat "a") 0 (-999) sC6).current "a").getD 0 := by
  have hev : (dragMove (.flat "a") 0 (-999) sC6).current "a"
      = some (jsMax 0 (5 + ((-999 : ℚ) - 0))) := by
    simp [dragMove, sC6]
  have h0 := C6_drag_width_nonneg (.flat "a") 0 (-999) sC6
    (by intro k q hk
        by_cases hka : k = "a"
        · simp [sC6, hka] at hk
          rw [← hk]
          norm_num
        · simp [sC6, hka] at hk)
    "a" (jsMax 0 (5 + ((-999 : ℚ) - 0))) hev
  rw [hev]
  simpa using h0

/-- C7: after a drag-end, every affected column id with an associated
visual node has its current width overwritten with exactly that node's
rendered width; affected ids with no associated node, and unaffected ids,
keep their previous value. -/
theorem C7_dragEnd_resync (cell : HeaderCell)
    (nodeForId : String → Option Element) (s : ColumnsWidthState) :
    (∀ i ∈ affectedIds cell, ∀ node, nodeForId i = some node →
      (dragEnd cell nodeForId s).current i = some node.clientWidth)
    ∧ (∀ i ∈ affectedIds cell, nodeForId i = none →
      (dragEnd cell nodeForId s).current i = s.current i)
    ∧ (∀ i, i ∉ affectedIds cell →
      (dragEnd cell nodeForId s).current i = s.current i) := by
  cases cell with
  | flat j =>
    refine ⟨?_, ?_, ?_⟩
    · intro i hi node hnode
      simp only [affectedIds, List.mem_singleton] at hi
      subst hi
      simp only [dragEnd, hnode]
      simp
    · intro i hi hnone
      simp only [affectedIds, List.mem_singleton] at hi
      subst hi
      simp only [dragEnd, hnone]
    · intro i hi
      simp only [affectedIds, List.mem_singleton] at hi
      cases hnode : nodeForId j with
      | none => simp only [dragEnd, hnode]
      | some node =>
        simp only [dragEnd, hnode]
        rw [if_neg hi]
  | group gid ids =>
    refine ⟨?_, ?_, ?_⟩
    · intro i hi node hnode
      simp only [affectedIds] at hi
      simp only [dragEnd]
      rw [dragEndStep_foldl, if_pos hi, hnode]
      simp only [Option.map_some', Option.elim]
    · intro i hi hnone
      simp only [affectedIds] at hi
      simp only [dragEnd]
      rw [dragEndStep_foldl, if_pos hi, hnone]
      simp only [Option.map_none', Option.elim]
    · intro i hi
      simp only [affectedIds] at hi
      simp only [dragEnd]
      rw [dragEndStep_foldl, if_neg hi]

theorem C7_witness :
    (dragEnd (.group "g" ["a", "b"]) nodesC7 sC7).current "a" = some 42
    ∧ (dragEnd (.group "g" ["a", "b"]) nodesC7 sC7).current "b" = some 7 := by
  have h := C7_dragEnd_resync (.group "g" ["a", "b"]) nodesC7 sC7
  constructor
  · exact h.1 "a" (by simp [affectedIds]) (Element.mk 42) rfl
  · rw [h.2.1 "b" (by simp [affectedIds]) rfl]
    rfl

/-! ## Helper lemmas: filtering -/

theorem cellMatchEval_fst (fn : String → String → Bool) (ihc : Bool)
    (co : String → Option TableFilterColumnOptions) (fv rowId : String)
    (cells : List BodyCell) (c : BodyCell) (m : MatchMap) :
    (cellMatchEval fn ihc co fv rowId cells c m).1
      = cellPasses fn ihc co fv cells c := by
  cases c with
  | display i =>
    simp only [cellMatchEval, cellPasses, evaluableCell, extractedValue]
    split_ifs <;> simp
  | data i v =>
    simp only [cellMatchEval, cellPasses, evaluableCell, extractedValue,
      BodyCell.id]
    split_ifs <;> simp

theorem cellMatchEval_snd (fn : String → String → Bool) (ihc : Bool)
    (co : String → Option TableFilterColumnOptions) (fv rowId : String)
    (cells : List BodyCell) (c : BodyCell) (m : MatchMap) :
    (cellMatchEval fn ihc co fv rowId cells c m).2
      = if evaluableCell ihc co cells c = true
        then ((rowId, c.id), cellPasses fn ihc co fv cells c) :: m
        else m := by
  cases c with
  | display j =>
    simp only [cellMatchEval, evaluableCell, BodyCell.id]
    split_ifs <;> simp_all
  | data j v =>
    simp only [cellMatchEval, evaluableCell,
      show (BodyCell.data j v).id = j from rfl]
    by_cases he : (co j).bind TableFilterColumnOptions.exclude = some true
    · rw [if_pos he, if_pos he]
      simp
    · rw [if_neg he, if_neg he]
      by_cases hh : ((cells.find? fun cc => cc.id == j).isNone && !ihc) = true
      · rw [if_pos hh, if_pos hh]
        simp
      · rw [if_neg hh, if_neg hh]
        simp only [cellPasses, evaluableCell, extractedValue, rowColId,
          show (BodyCell.data j v).id = j from rfl]
        rw [if_neg he, if_neg hh]
        simp

theorem rowCellMatchesList_fst (fn : String → String → Bool) (ihc : Bool)
    (co : String → Option TableFilterColumnOptions) (fv rowId : String)
    (cells : List BodyCell) (l : List BodyCell) (m : MatchMap) :
    (rowCellMatchesList fn ihc co fv rowId cells l m).1
      = l.map (cellPasses fn ihc co fv cells) := by
  induction l generalizing m with
  | nil => rfl
  | cons c cs ihl =>
    simp only [rowCellMatchesList, List.map_cons]
    rw [cellMatchEval_fst, ihl]

theorem rowCellMatchesList_snd_append (fn : String → String → Bool) (ihc : Bool)
    (co : String → Option TableFilterColumnOptions) (fv rowId : String)
    (cells : List BodyCell) (l : List BodyCell) (m : MatchMap) :
    ∃ e, (rowCellMatchesList fn ihc co fv rowId cells l m).2 = e ++ m := by
  induction l generalizing m with
  | nil => exact ⟨[], rfl⟩
  | cons c cs ihl =>
    simp only [rowCellMatchesList]
    obtain ⟨e1, he1⟩ := ihl (cellMatchEval fn ihc co fv rowId cells c m).2
    rw [he1, cellMatchEval_snd]
    by_cases hev : evaluableCell ihc co cells c = true
    · rw [if_pos hev]
      exact ⟨e1 ++ [((rowId, c.id), cellPasses fn ihc co fv cells c)],
        by rw [List.append_assoc]; rfl⟩
    · rw [if_neg hev]
      exact ⟨e1, rfl⟩

theorem lookup_cons_self {β : Type} (k : String × String) (b : β)
    (m : List ((String × String) × β)) :
    List.lookup k ((k, b) :: m) = some b := by
  simp [List.lookup]

theorem lookup_append_isSome {β : Type} (k : String × String)
    (e m : List ((String × String) × β))
    (h : (List.lookup k m).isSome = true) :
    (List.lookup k (e ++ m)).isSome = true := by
  induction e with
  | nil => simpa using h
  | cons p e ihe =>
    rcases p with ⟨k', b⟩
    by_cases hk : k = k'
    · subst hk
      simp [List.lookup]
    · simp only [List.cons_append, List.lookup]
      rw [show (k == k') = false from by simpa using hk]
      exact ihe

theorem rowCellMatchesList_lookup (fn : String → String → Bool) (ihc : Bool)
    (co : String → Option TableFilterColumnOptions) (fv rowId : String)
    (cells : List BodyCell) (l : List BodyCell) (m : MatchMap) (c : BodyCell)
    (hc : c ∈ l) (hev : evaluableCell ihc co cells c = true) :
    ((rowCellMatchesList fn ihc co fv rowId cells l m).2.lookup
      (rowId, c.id)).isSome = true := by
  induction l generalizing m with
  | nil => cases hc
  | cons a l ihl =>
    simp only [rowCellMatchesList]
    rcases List.mem_cons.mp hc with rfl | hmem
    · obtain ⟨e, he⟩ := rowCellMatchesList_snd_append fn ihc co fv rowId cells l
        (cellMatchEval fn ihc co fv rowId cells c m).2
      rw [he, cellMatchEval_snd, if_pos hev]
      exact lookup_append_isSome _ e _ (by rw [lookup_cons_self]; rfl)
    · exact ihl _ hmem

theorem rowFilterPred_fst (fn : String → String → Bool) (ihc : Bool)
    (co : String → Option TableFilterColumnOptions) (fv : String)
    (r : BodyRow) (m : MatchMap) :
    (rowFilterPred fn ihc co fv r m).1 = rowKeepDecision fn ihc co fv r := by
  unfold rowFilterPred rowKeepDecision
  split
  · rfl
  · simp only [rowSelfMatches]
    rw [rowCellMatchesList_fst]

theorem rowFilterPred_snd (fn : String → String → Bool) (ihc : Bool)
    (co : String → Option TableFilterColumnOptions) (fv : String)
    (r : BodyRow) (m : MatchMap) :
    (rowFilterPred fn ihc co fv r m).2
      = if (match r.subRows with | some l => l.length | none => 0) ≠ 0 then m
        else (rowCellMatchesList fn ihc co fv r.id r.cells r.cellForId m).2 := by
  unfold rowFilterPred
  split
  · rfl
  · rfl

theorem filterPhase_fst (fn : String → String → Bool) (ihc : Bool)
    (co : String → Option TableFilterColumnOptions) (fv : String)
    (rows : List BodyRow) (m : MatchMap) :
    (filterPhase fn ihc co fv rows m).1
      = rows.filter (rowKeepDecision fn ihc co fv) := by
  induction rows generalizing m with
  | nil => rfl
  | cons r rs ihr =>
    simp only [filterPhase, List.filter_cons]
    rw [rowFilterPred_fst, ihr]

theorem rowFilterPred_snd_append (fn : String → String → Bool) (ihc : Bool)
    (co : String → Option TableFilterColumnOptions) (fv : String)
    (r : BodyRow) (m : MatchMap) :
    ∃ e, (rowFilterPred fn ihc co fv r m).2 = e ++ m := by
  rw [rowFilterPred_snd]
  split
  · exact ⟨[], rfl⟩
  · exact rowCellMatchesList_snd_append fn ihc co fv r.id r.cells r.cellForId m

theorem filterPhase_snd_append (fn : String → String → Bool) (ihc : Bool)
    (co : String → Option TableFilterColumnOptions) (fv : String)
    (rows : List BodyRow) (m : MatchMap) :
    ∃ e, (filterPhase fn ihc co fv rows m).2 = e ++ m := by
  induction rows generalizing m with
  | nil => exact ⟨[], rfl⟩
  | cons r rs ihr =>
    simp only [filterPhase]
    obtain ⟨e1, he1⟩ := rowFilterPred_snd_append fn ihc co fv r m
    obtain ⟨e2, he2⟩ := ihr (rowFilterPred fn ihc co fv r m).2
    exact ⟨e2 ++ e1, by rw [he2, he1, List.append_assoc]⟩

theorem mapRowSubRows_none (fn : String → String → Bool) (ihc : Bool)
    (co : String → Option TableFilterColumnOptions) (fv : String)
    (i : String) (cfi cs : List BodyCell) (m : MatchMap) :
    mapRowSubRows fn ihc co fv (.mk i cfi cs none) m = (.mk i cfi cs none, m) :=
  rfl

theorem mapRowSubRows_some (fn : String → String → Bool) (ihc : Bool)
    (co : String → Option TableFilterColumnOptions) (fv : String)
    (i : String) (cfi cs : List BodyCell) (sub : List BodyRow) (m : MatchMap) :
    mapRowSubRows fn ihc co fv (.mk i cfi cs (some sub)) m
      = (.mk i cfi cs (some (getFilteredRows fn ihc co fv sub m).1),
         (getFilteredRows fn ihc co fv sub m).2) :=
  rfl

theorem getFilteredRows_fst (fn : String → String → Bool) (ihc : Bool)
    (co : String → Option TableFilterColumnOptions) (fv : String)
    (rows : List BodyRow) (m : MatchMap) :
    (getFilteredRows fn ihc co fv rows m).1
      = ((mapSubRows fn ihc co fv rows m).1).filter
          (rowKeepDecision fn ihc co fv) := by
  show (filterPhase fn ihc co fv (mapSubRows fn ihc co fv rows m).1
    (mapSubRows fn ihc co fv rows m).2).1 = _
  rw [filterPhase_fst]

theorem getFilteredRows_snd (fn : String → String → Bool) (ihc : Bool)
    (co : String → Option TableFilterColumnOptions) (fv : String)
    (rows : List BodyRow) (m : MatchMap) :
    (getFilteredRows fn ihc co fv rows m).2
      = (filterPhase fn ihc co fv (mapSubRows fn ihc co fv rows m).1
          (mapSubRows fn ihc co fv rows m).2).2 :=
  rfl

theorem mapSubRows_cons (fn : String → String → Bool) (ihc : Bool)
    (co : String → Option TableFilterColumnOptions) (fv : String)
    (r : BodyRow) (rs : List BodyRow) (m : MatchMap) :
    mapSubRows fn ihc co fv (r :: rs) m
      = ((mapRowSubRows fn ihc co fv r m).1
          :: (mapSubRows fn ihc co fv rs (mapRowSubRows fn ihc co fv r m).2).1,
         (mapSubRows fn ihc co fv rs (mapRowSubRows fn ihc co fv r m).2).2) :=
  rfl

/-! ## Claim C9: the body-cell `matches` prop -/

/-- C9: the `matches` prop is true iff the filter value is non-empty and
the match map has a `true` entry under the cell's composite key (an absent
entry counts as false); with the empty filter value the prop is false. -/
theorem C9_matches_prop (fv : String) (m : MatchMap) (k : String × String) :
    (matchesProp fv m k = true ↔ (fv ≠ "" ∧ m.lookup k = some true))
    ∧ matchesProp "" m k = false := by
  constructor
  · unfold matchesProp
    cases h : m.lookup k with
    | none => simp [h]
    | some b =>
      cases b
      · simp [h]
      · simp [h]
  · unfold matchesProp
    simp

theorem C9_witness : matchesProp "" ([] : MatchMap) ("r", "c") = false :=
  (C9_matches_prop "" [] ("r", "c")).2

/-! ## Claim C2: filtering with the empty filter value -/

theorem cellPasses_empty (ihc : Bool)
    (co : String → Option TableFilterColumnOptions)
    (cells : List BodyCell) (c : BodyCell) :
    cellPasses textPrefixFilter ihc co "" cells c
      = evaluableCell ihc co cells c := by
  unfold cellPasses
  rw [show textPrefixFilter "" (extractedValue co c) = true from rfl,
    Bool.and_true]

theorem contains_true_cons (b : Bool) (X : List Bool) :
    ((b :: X).contains true) = (b || X.contains true) := by
  cases b <;> rfl

theorem contains_map_true (l : List BodyCell) (f : BodyCell → Bool) :
    ((l.map f).contains true) = l.any f := by
  induction l with
  | nil => rfl
  | cons a l ihl =>
    rw [List.map_cons, contains_true_cons, ihl,
      show (a :: l).any f = (f a || l.any f) from rfl]

theorem rowSelfMatches_empty (ihc : Bool)
    (co : String → Option TableFilterColumnOptions) (r : BodyRow) :
    rowSelfMatches textPrefixFilter ihc co "" r
      = hasEvaluableCell ihc co r := by
  unfold rowSelfMatches hasEvaluableCell
  simp only [cellPasses_empty]
  rw [contains_map_true]

theorem allLeaves_mem (ihc : Bool)
    (co : String → Option TableFilterColumnOptions) :
    ∀ rows : List BodyRow, allLeavesEvaluable ihc co rows = true →
      ∀ r ∈ rows, rowLeavesEvaluable ihc co r = true := by
  intro rows
  induction rows with
  | nil => intro _ r hr; cases hr
  | cons a l ihl =>
    intro h r hr
    simp only [allLeavesEvaluable, Bool.and_eq_true] at h
    rcases List.mem_cons.mp hr with rfl | hmem
    · exact h.1
    · exact ihl h.2 r hmem

theorem keep_of_leaves (ihc : Bool)
    (co : String → Option TableFilterColumnOptions) (r : BodyRow)
    (h : rowLeavesEvaluable ihc co r = true) :
    rowKeepDecision textPrefixFilter ihc co "" r = true := by
  cases r with
  | mk i cfi cs sub =>
    cases sub with
    | none =>
      unfold rowKeepDecision
      rw [if_neg (by simp [BodyRow.subRows]), rowSelfMatches_empty]
      simpa [rowLeavesEvaluable] using h
    | some l =>
      cases l with
      | nil =>
        unfold rowKeepDecision
        rw [if_neg (by simp [BodyRow.subRows]), rowSelfMatches_empty]
        simpa [rowLeavesEvaluable] using h
      | cons x xs =>
        unfold rowKeepDecision
        rw [if_pos (by simp [BodyRow.subRows])]

mutual
theorem msr_empty (ihc : Bool)
    (co : String → Option TableFilterColumnOptions) :
    ∀ (rows : List BodyRow) (m : MatchMap),
      allLeavesEvaluable ihc co rows = true →
      (mapSubRows textPrefixFilter ihc co "" rows m).1 = rows
  | [], _, _ => rfl
  | r :: rs, m, h => by
    have h1 : rowLeavesEvaluable ihc co r = true := by
      simp only [allLeavesEvaluable, Bool.and_eq_true] at h
      exact h.1
    have h2 : allLeavesEvaluable ihc co rs = true := by
      simp only [allLeavesEvaluable, Bool.and_eq_true] at h
      exact h.2
    rw [mapSubRows_cons]
    show (mapRowSubRows textPrefixFilter ihc co "" r m).1
        :: (mapSubRows textPrefixFilter ihc co "" rs _).1 = r :: rs
    rw [mrsr_empty ihc co r m h1, msr_empty ihc co rs _ h2]
termination_by rows _ _ => 2 * sizeOf rows

theorem mrsr_empty (ihc : Bool)
    (co : String → Option TableFilterColumnOptions) :
    ∀ (r : BodyRow) (m : MatchMap),
      rowLeavesEvaluable ihc co r = true →
      (mapRowSubRows textPrefixFilter ihc co "" r m).1 = r
  | .mk _ _ _ none, _, _ => rfl
  | .mk _ _ _ (some []), _, _ => rfl
  | .mk i cfi cs (some (x :: xs)), m, h => by
    have hsub : allLeavesEvaluable ihc co (x :: xs) = true := by
      simpa [rowLeavesEvaluable] using h
    rw [mapRowSubRows_some]
    show BodyRow.mk i cfi cs
        (some (getFilteredRows textPrefixFilter ihc co "" (x :: xs) m).1)
      = BodyRow.mk i cfi cs (some (x :: xs))
    rw [gfr_empty ihc co (x :: xs) m hsub]
termination_by r _ _ => 2 * sizeOf r

theorem gfr_empty (ihc : Bool)
    (co : String → Option TableFilterColumnOptions) :
    ∀ (rows : List BodyRow) (m : MatchMap),
      allLeavesEvaluable ihc co rows = true →
      (getFilteredRows textPrefixFilter ihc co "" rows m).1 = rows
  | rows, m, h => by
    rw [getFilteredRows_fst, msr_empty ihc co rows m h]
    apply List.filter_eq_self.mpr
    intro r hr
    exact keep_of_leaves ihc co r (allLeaves_mem ihc co rows h r hr)
termination_by rows _ _ => 2 * sizeOf rows + 1
end

/-- C2 counterexample: with the default configuration (default predicate,
`includeHiddenColumns = false`, no column options), the empty filter value
removes `rowC2x`, whose only cell is on a hidden column — the output is not
the original row set. -/
theorem C2_counterexample :
    (getFilteredRows textPrefixFilter false noColumnOptions "" [rowC2x] []).1 = []
    ∧ (getFilteredRows textPrefixFilter false noColumnOptions "" [rowC2x] []).1
      ≠ [rowC2x] := by
  have e : (getFilteredRows textPrefixFilter false noColumnOptions ""
      [rowC2x] []).1 = [] := rfl
  refine ⟨e, ?_⟩
  rw [e]
  intro hcontra
  exact List.noConfusion hcontra

/-- C2 (amended): filtering with the empty filter value and the default
predicate returns the input rows unchanged (same rows, same order, same
hierarchy) provided every row in leaf position — no sub-row list or an
empty one — has at least one evaluable cell; rows whose every cell is
excluded, hidden (without `includeHiddenColumns`), or non-data are removed
even by the empty filter. -/
theorem C2_empty_filter_identity (ihc : Bool)
    (co : String → Option TableFilterColumnOptions)
    (rows : List BodyRow) (m : MatchMap)
    (h : allLeavesEvaluable ihc co rows = true) :
    (getFilteredRows textPrefixFilter ihc co "" rows m).1 = rows :=
  gfr_empty ihc co rows m h

theorem C2_witness :
    (getFilteredRows textPrefixFilter false noColumnOptions "" rowsC2w []).1
      = rowsC2w :=
  C2_empty_filter_identity false noColumnOptions rowsC2w [] (by decide)

/-! ## Claim C3: match-map completeness -/

theorem filterPhase_lookup (fn : String → String → Bool) (ihc : Bool)
    (co : String → Option TableFilterColumnOptions) (fv : String) :
    ∀ (l : List BodyRow) (m : MatchMap) (r : BodyRow), r ∈ l →
      (match r.subRows with | some x => x = [] | none => True) →
      ∀ c ∈ r.cellForId, evaluableCell ihc co r.cells c = true →
      (((filterPhase fn ihc co fv l m).2).lookup (r.id, c.id)).isSome = true := by
  intro l
  induction l with
  | nil =>
    intro m r hr
    cases hr
  | cons a l ihl =>
    intro m r hr hsub c hc hev
    rcases List.mem_cons.mp hr with rfl | hmem
    · have hpred : (rowFilterPred fn ihc co fv r m).2
          = (rowCellMatchesList fn ihc co fv r.id r.cells r.cellForId m).2 := by
        rw [rowFilterPred_snd, if_neg ?hc0]
        case hc0 =>
          cases hs : r.subRows with
          | none => simp [hs]
          | some x =>
            rw [hs] at hsub
            simp [hs, hsub]
      obtain ⟨e, he⟩ := filterPhase_snd_append fn ihc co fv l
        (rowFilterPred fn ihc co fv r m).2
      have hlk := rowCellMatchesList_lookup fn ihc co fv r.id r.cells
        r.cellForId m c hc hev
      have hstep : (filterPhase fn ihc co fv (r :: l) m).2
          = (filterPhase fn ihc co fv l (rowFilterPred fn ihc co fv r m).2).2 :=
        rfl
      rw [hstep, he, hpred]
      exact lookup_append_isSome _ e _ hlk
    · have hstep : (filterPhase fn ihc co fv (a :: l) m).2
          = (filterPhase fn ihc co fv l (rowFilterPred fn ihc co fv a m).2).2 :=
        rfl
      rw [hstep]
      exact ihl _ r hmem hsub c hc hev

theorem mem_mapSubRows (fn : String → String → Bool) (ihc : Bool)
    (co : String → Option TableFilterColumnOptions) (fv : String) :
    ∀ (rows : List BodyRow) (m : MatchMap) (r : BodyRow), r ∈ rows →
      ∃ m', (mapRowSubRows fn ihc co fv r m').1
        ∈ (mapSubRows fn ihc co fv rows m).1 := by
  intro rows
  induction rows with
  | nil =>
    intro m r hr
    cases hr
  | cons a l ihl =>
    intro m r hr
    rcases List.mem_cons.mp hr with rfl | hmem
    · exact ⟨m, by rw [mapSubRows_cons]; exact List.mem_cons_self _ _⟩
    · obtain ⟨m', hm'⟩ := ihl (mapRowSubRows fn ihc co fv a m).2 r hmem
      exact ⟨m', by rw [mapSubRows_cons]; exact List.mem_cons_of_mem _ hm'⟩

theorem mapRowSubRows_emptied (fn : String → String → Bool) (ihc : Bool)
    (co : String → Option TableFilterColumnOptions) (fv : String) (r : BodyRow)
    (hsub : ∀ mm : MatchMap, (match r.subRows with
      | some sub => (getFilteredRows fn ihc co fv sub mm).1 = []
      | none => True)) (m : MatchMap) :
    (mapRowSubRows fn ihc co fv r m).1.id = r.id
    ∧ (mapRowSubRows fn ihc co fv r m).1.cellForId = r.cellForId
    ∧ (mapRowSubRows fn ihc co fv r m).1.cells = r.cells
    ∧ (match (mapRowSubRows fn ihc co fv r m).1.subRows with
        | some x => x = [] | none => True) := by
  cases r with
  | mk i cfi cs sub =>
    cases sub with
    | none => exact ⟨rfl, rfl, rfl, trivial⟩
    | some sub =>
      rw [mapRowSubRows_some]
      refine ⟨rfl, rfl, rfl, ?_⟩
      show (getFilteredRows fn ihc co fv sub m).1 = []
      exact hsub m

/-- C3 counterexample: the parent row's `name` cell is evaluable, but after
the filter recomputation with value `"al"` (the child `"Alice"` matches, so
the parent is kept through its sub-row) no entry is recorded under the
parent's composite key `("p", "name")` — cells of a parent retained through
a non-empty filtered sub-row list are never evaluated. -/
theorem C3_counterexample :
    evaluableCell false noColumnOptions rowC3parent.cells
      (BodyCell.data "name" "Zed") = true
    ∧ (BodyCell.data "name" "Zed") ∈ rowC3parent.cellForId
    ∧ ((getFilteredRows textPrefixFilter false noColumnOptions "al"
        [rowC3parent] []).2.lookup ("p", "name")) = none
    ∧ (getFilteredRows textPrefixFilter false noColumnOptions "al"
        [rowC3parent] []).1 ≠ [] := by
  refine ⟨by decide, by decide, by decide, ?_⟩
  intro hcontra
  rw [show (getFilteredRows textPrefixFilter false noColumnOptions "al"
      [rowC3parent] []).1 = [getCloned rowC3parent [rowC3child]] from rfl]
    at hcontra
  exact List.noConfusion hcontra

/-- C3 (amended): after a filter recomputation, every evaluable cell of
every input row whose recursively filtered sub-row list is empty (or which
has no sub-row list) has a recorded boolean entry in the match map under its
composite key — including rows that were excluded from the result; cells of
parent rows retained through a non-empty filtered sub-row list are not
evaluated and get no entry. -/
theorem C3_matchmap_completeness (fn : String → String → Bool) (ihc : Bool)
    (co : String → Option TableFilterColumnOptions) (fv : String)
    (rows : List BodyRow) (m₀ : MatchMap) (r : BodyRow) (hr : r ∈ rows)
    (hsub : ∀ mm : MatchMap, (match r.subRows with
      | some sub => (getFilteredRows fn ihc co fv sub mm).1 = []
      | none => True))
    (c : BodyCell) (hc : c ∈ r.cellForId)
    (hev : evaluableCell ihc co r.cells c = true) :
    (((getFilteredRows fn ihc co fv rows m₀).2).lookup (r.id, c.id)).isSome
      = true := by
  obtain ⟨m', hmem⟩ := mem_mapSubRows fn ihc co fv rows m₀ r hr
  obtain ⟨hid, hcfi, hcs, hsub'⟩ := mapRowSubRows_emptied fn ihc co fv r hsub m'
  have key := filterPhase_lookup fn ihc co fv
    (mapSubRows fn ihc co fv rows m₀).1 (mapSubRows fn ihc co fv rows m₀).2
    (mapRowSubRows fn ihc co fv r m').1 hmem hsub' c
    (by rw [hcfi]; exact hc) (by rw [hcs]; exact hev)
  rw [getFilteredRows_snd]
  rw [hid] at key
  exact key

theorem C3_witness :
    (((getFilteredRows textPrefixFilter false noColumnOptions "al"
        [rowC3w] []).2).lookup ("r", "n")).isSome = true :=
  C3_matchmap_completeness textPrefixFilter false noColumnOptions "al"
    [rowC3w] [] rowC3w (List.mem_cons_self _ _) (fun _ => trivial)
    (BodyCell.data "n" "Bob") (by decide) (by decide)

/-! ## Claim C4: ancestor bubbling and subtree pruning -/

theorem rowOrDescMatches_def (fn : String → String → Bool) (ihc : Bool)
    (co : String → Option TableFilterColumnOptions) (fv : String)
    (r : BodyRow) :
    rowOrDescMatches fn ihc co fv r
      = (rowSelfMatches fn ihc co fv r
        || (match r.subRows with
            | some sub => anyRowMatches fn ihc co fv sub
            | none => false)) := by
  cases r with
  | mk i cfi cs sub =>
    cases sub with
    | none => simp [rowOrDescMatches, BodyRow.subRows]
    | some sub => rfl

theorem anyRowMatches_of_mem (fn : String → String → Bool) (ihc : Bool)
    (co : String → Option TableFilterColumnOptions) (fv : String) :
    ∀ (l : List BodyRow) (r : BodyRow), r ∈ l →
      rowOrDescMatches fn ihc co fv r = true →
      anyRowMatches fn ihc co fv l = true := by
  intro l
  induction l with
  | nil =>
    intro r hr
    cases hr
  | cons a l ihl =>
    intro r hr hgood
    rw [show anyRowMatches fn ihc co fv (a :: l)
      = (rowOrDescMatches fn ihc co fv a || anyRowMatches fn ihc co fv l)
      from rfl]
    rcases List.mem_cons.mp hr with rfl | hmem
    · rw [hgood]
      rfl
    · rw [ihl r hmem hgood]
      exact Bool.or_true _

theorem rowForestAll_def (p : BodyRow → Bool) (r : BodyRow) :
    rowForestAll p r
      = (p r && (match r.subRows with
          | some sub => forestAll p sub
          | none => true)) := by
  cases r with
  | mk i cfi cs sub =>
    cases sub with
    | none => simp [rowForestAll, BodyRow.subRows]
    | some sub => rfl

theorem forestAll_mem_iff (p : BodyRow → Bool) (l : List BodyRow) :
    forestAll p l = true ↔ ∀ r ∈ l, rowForestAll p r = true := by
  induction l with
  | nil => simp [forestAll]
  | cons a l ihl =>
    rw [show forestAll p (a :: l) = (rowForestAll p a && forestAll p l)
      from rfl, Bool.and_eq_true, ihl]
    constructor
    · intro h r hr
      rcases List.mem_cons.mp hr with rfl | hmem
      · exact h.1
      · exact h.2 r hmem
    · intro h
      exact ⟨h a (List.mem_cons_self a l),
        fun r hr => h r (List.mem_cons_of_mem a hr)⟩

theorem keep_of_self (fn : String → String → Bool) (ihc : Bool)
    (co : String → Option TableFilterColumnOptions) (fv : String)
    (r : BodyRow) (h : rowSelfMatches fn ihc co fv r = true) :
    rowKeepDecision fn ihc co fv r = true := by
  unfold rowKeepDecision
  split
  · rfl
  · exact h

/-- A forest with a row that matches (itself or through a descendant) never
filters to the empty list: the matching chain bottoms out in a kept row. -/
theorem gfr_ne_nil (fn : String → String → Bool) (ihc : Bool)
    (co : String → Option TableFilterColumnOptions) (fv : String) :
    ∀ (rows : List BodyRow) (m : MatchMap),
      anyRowMatches fn ihc co fv rows = true →
      (getFilteredRows fn ihc co fv rows m).1 ≠ []
  | [], _, h => Bool.noConfusion h
  | r :: rs, m, h => by
    rw [getFilteredRows_fst, mapSubRows_cons]
    show ((mapRowSubRows fn ihc co fv r m).1
      :: (mapSubRows fn ihc co fv rs (mapRowSubRows fn ihc co fv r m).2).1).filter
        (rowKeepDecision fn ihc co fv) ≠ []
    rw [List.filter_cons]
    have h' : rowOrDescMatches fn ihc co fv r = true
        ∨ anyRowMatches fn ihc co fv rs = true := by
      have h2 : (rowOrDescMatches fn ihc co fv r
          || anyRowMatches fn ihc co fv rs) = true := h
      rw [Bool.or_eq_true] at h2
      exact h2
    rcases h' with hor | hrs
    · have hkeep : rowKeepDecision fn ihc co fv
          (mapRowSubRows fn ihc co fv r m).1 = true := by
        cases r with
        | mk i cfi cs sub =>
          cases sub with
          | none =>
            exact keep_of_self fn ihc co fv _ hor
          | some sub =>
            rw [rowOrDescMatches_def, Bool.or_eq_true] at hor
            rcases hor with hself | hany
            · exact keep_of_self fn ihc co fv _ hself
            · have hne : (getFilteredRows fn ihc co fv sub m).1 ≠ [] :=
                gfr_ne_nil fn ihc co fv sub m
                  (show anyRowMatches fn ihc co fv sub = true from hany)
              have hcond : (match (BodyRow.mk i cfi cs
                  (some (getFilteredRows fn ihc co fv sub m).1)).subRows with
                  | some l => l.length
                  | none => 0) ≠ 0 := by
                intro h0
                exact hne (List.length_eq_zero.mp h0)
              rw [mapRowSubRows_some]
              unfold rowKeepDecision
              rw [if_pos hcond]
      rw [if_pos hkeep]
      exact List.cons_ne_nil _ _
    · split
      · exact List.cons_ne_nil _ _
      · rw [← getFilteredRows_fst]
        exact gfr_ne_nil fn ihc co fv rs _ hrs
termination_by rows _ _ => sizeOf rows

mutual
theorem mapped_good (fn : String → String → Bool) (ihc : Bool)
    (co : String → Option TableFilterColumnOptions) (fv : String) :
    ∀ (rows : List BodyRow) (m : MatchMap) (r1 : BodyRow),
      r1 ∈ (mapSubRows fn ihc co fv rows m).1 →
      (match r1.subRows with
        | some sub1 =>
          forestAll (rowOrDescMatches fn ihc co fv) sub1 = true
        | none => True)
  | [], _, r1, h => absurd h (List.not_mem_nil r1)
  | r :: rs, m, r1, h => by
    rw [mapSubRows_cons] at h
    rcases List.mem_cons.mp h with rfl | hmem
    · cases r with
      | mk i cfi cs sub =>
        cases sub with
        | none => exact trivial
        | some sub =>
          show forestAll (rowOrDescMatches fn ihc co fv)
            (getFilteredRows fn ihc co fv sub m).1 = true
          exact filtered_good fn ihc co fv sub m
    · exact mapped_good fn ihc co fv rs _ r1 hmem
termination_by rows _ _ _ => 2 * sizeOf rows

/-- Every row of the filtered output, at every depth, matches or has a
descendant (in the retained subtree) that matches. -/
theorem filtered_good (fn : String → String → Bool) (ihc : Bool)
    (co : String → Option TableFilterColumnOptions) (fv : String) :
    ∀ (rows : List BodyRow) (m : MatchMap),
      forestAll (rowOrDescMatches fn ihc co fv)
        (getFilteredRows fn ihc co fv rows m).1 = true
  | rows, m => by
    rw [getFilteredRows_fst]
    apply (forestAll_mem_iff _ _).mpr
    intro r1 hr1
    have hmem := List.mem_filter.mp hr1
    have hshape := mapped_good fn ihc co fv rows m r1 hmem.1
    rw [rowForestAll_def, Bool.and_eq_true]
    constructor
    · have hkeep := hmem.2
      unfold rowKeepDecision at hkeep
      split at hkeep
      · rename_i hC
        rw [rowOrDescMatches_def, Bool.or_eq_true]
        right
        cases hs1 : r1.subRows with
        | none =>
          rw [hs1] at hC
          exact absurd rfl hC
        | some sub1 =>
          rw [hs1] at hC hshape
          have hsh : forestAll (rowOrDescMatches fn ihc co fv) sub1 = true :=
            hshape
          have hC' : sub1.length ≠ 0 := hC
          cases sub1 with
          | nil => exact absurd rfl hC'
          | cons y ys =>
            show anyRowMatches fn ihc co fv (y :: ys) = true
            have hy : rowForestAll (rowOrDescMatches fn ihc co fv) y = true :=
              (forestAll_mem_iff _ _).mp hsh y (List.mem_cons_self y ys)
            have hgood : rowOrDescMatches fn ihc co fv y = true := by
              rw [rowForestAll_def, Bool.and_eq_true] at hy
              exact hy.1
            exact anyRowMatches_of_mem fn ihc co fv (y :: ys) y
              (List.mem_cons_self y ys) hgood
      · rw [rowOrDescMatches_def, Bool.or_eq_true]
        left
        exact hkeep
    · cases hs1 : r1.subRows with
      | none => rfl
      | some sub1 =>
        rw [hs1] at hshape
        exact hshape
termination_by rows _ => 2 * sizeOf rows + 1
end

/-- C4: a parent row none of whose own cells matches but with a matching
descendant is retained (as the clone carrying its recursively filtered
sub-rows), and the whole filtered output contains only rows that match or
are ancestors of rows (in the retained subtree) that match. -/
theorem C4_ancestor_bubbling (fn : String → String → Bool) (ihc : Bool)
    (co : String → Option TableFilterColumnOptions) (fv : String)
    (i : String) (cfi cs : List BodyCell) (sub : List BodyRow) (m : MatchMap)
    (_hself : rowSelfMatches fn ihc co fv (.mk i cfi cs (some sub)) = false)
    (hdesc : anyRowMatches fn ihc co fv sub = true) :
    (getFilteredRows fn ihc co fv [BodyRow.mk i cfi cs (some sub)] m).1
      = [getCloned (BodyRow.mk i cfi cs (some sub))
          (getFilteredRows fn ihc co fv sub m).1]
    ∧ forestAll (rowOrDescMatches fn ihc co fv)
        (getFilteredRows fn ihc co fv [BodyRow.mk i cfi cs (some sub)] m).1
        = true := by
  constructor
  · have hne := gfr_ne_nil fn ihc co fv sub m hdesc
    rw [getFilteredRows_fst, mapSubRows_cons]
    show ((BodyRow.mk i cfi cs (some (getFilteredRows fn ihc co fv sub m).1))
      :: []).filter (rowKeepDecision fn ihc co fv)
      = [getCloned (BodyRow.mk i cfi cs (some sub))
          (getFilteredRows fn ihc co fv sub m).1]
    rw [List.filter_cons]
    have hkeep : rowKeepDecision fn ihc co fv
        (BodyRow.mk i cfi cs (some (getFilteredRows fn ihc co fv sub m).1))
        = true := by
      have hcond : (match (BodyRow.mk i cfi cs
          (some (getFilteredRows fn ihc co fv sub m).1)).subRows with
          | some l => l.length
          | none => 0) ≠ 0 := by
        intro h0
        exact hne (List.length_eq_zero.mp h0)
      unfold rowKeepDecision
      rw [if_pos hcond]
    rw [if_pos hkeep]
    rfl
  · exact filtered_good fn ihc co fv [BodyRow.mk i cfi cs (some sub)] m

theorem C4_witness :
    (getFilteredRows textPrefixFilter false noColumnOptions "al"
        [rowC4parent] []).1
      = [getCloned rowC4parent
          (getFilteredRows textPrefixFilter false noColumnOptions "al"
            [rowC4child] []).1]
    ∧ forestAll (rowOrDescMatches textPrefixFilter false noColumnOptions "al")
        (getFilteredRows textPrefixFilter false noColumnOptions "al"
          [rowC4parent] []).1 = true :=
  C4_ancestor_bubbling textPrefixFilter false noColumnOptions "al" "c4p"
    [BodyCell.data "name" "Zed"] [BodyCell.data "name" "Zed"] [rowC4child] []
    (by decide) (by decide)

/-! ## Claim C8: hidden columns and includeHiddenColumns -/

theorem evaluableCell_mono (co : String → Option TableFilterColumnOptions)
    (cells : List BodyCell) (c : BodyCell)
    (h : evaluableCell false co cells c = true) :
    evaluableCell true co cells c = true := by
  unfold evaluableCell at h ⊢
  by_cases he : (co c.id).bind TableFilterColumnOptions.exclude = some true
  · rw [if_pos he] at h
    cases h
  · rw [if_neg he] at h ⊢
    rw [if_neg (by simp)]
    by_cases hh : ((cells.find? fun cc => cc.id == c.id).isNone && !false) = true
    · rw [if_pos hh] at h
      cases h
    · rw [if_neg hh] at h
      exact h

theorem cellPasses_mono (fn : String → String → Bool)
    (co : String → Option TableFilterColumnOptions) (fv : String)
    (cells : List BodyCell) (c : BodyCell)
    (h : cellPasses fn false co fv cells c = true) :
    cellPasses fn true co fv cells c = true := by
  unfold cellPasses at h ⊢
  rw [Bool.and_eq_true] at h ⊢
  exact ⟨evaluableCell_mono co cells c h.1, h.2⟩

theorem evaluableCell_hidden_false (co : String → Option TableFilterColumnOptions)
    (cells : List BodyCell) (c : BodyCell)
    (hhid : ∀ cc ∈ cells, cc.id ≠ c.id) :
    evaluableCell false co cells c = false := by
  have hfind : (cells.find? fun cc => cc.id == c.id) = none := by
    apply List.find?_eq_none.mpr
    intro a ha
    simpa using hhid a ha
  unfold evaluableCell
  split_ifs with h1 h2
  · rfl
  · rfl
  · exact absurd (by rw [hfind]; rfl) h2

theorem any_eq_false_of (l : List BodyCell) (f : BodyCell → Bool)
    (h : ∀ c ∈ l, f c = false) : l.any f = false := by
  induction l with
  | nil => rfl
  | cons a l ihl =>
    rw [show (a :: l).any f = (f a || l.any f) from rfl,
      h a (List.mem_cons_self a l),
      ihl fun c hc => h c (List.mem_cons_of_mem a hc)]
    rfl

theorem rowSelfMatches_eq_false (fn : String → String → Bool) (ihc : Bool)
    (co : String → Option TableFilterColumnOptions) (fv : String)
    (r : BodyRow)
    (h : ∀ c ∈ r.cellForId, cellPasses fn ihc co fv r.cells c = false) :
    rowSelfMatches fn ihc co fv r = false := by
  unfold rowSelfMatches
  rw [contains_map_true]
  exact any_eq_false_of _ _ h

theorem rowSelfMatches_true_of (fn : String → String → Bool) (ihc : Bool)
    (co : String → Option TableFilterColumnOptions) (fv : String)
    (r : BodyRow) (c : BodyCell) (hc : c ∈ r.cellForId)
    (h : cellPasses fn ihc co fv r.cells c = true) :
    rowSelfMatches fn ihc co fv r = true := by
  unfold rowSelfMatches
  rw [contains_map_true]
  exact List.any_eq_true.mpr ⟨c, hc, h⟩

/-- C8 counterexample: the parent's only own cell that matches (ignoring
hiddenness) is on a hidden column (its visible cell list is empty), yet
with `includeHiddenColumns = false` the row is not excluded, because its
child matches. -/
theorem C8_counterexample :
    cellPasses textPrefixFilter true noColumnOptions "al" rowC8parent.cells
      (BodyCell.data "a" "Alice") = true
    ∧ (BodyCell.data "a" "Alice") ∈ rowC8parent.cellForId
    ∧ (∀ c ∈ rowC8parent.cells, c.id ≠ "a")
    ∧ (getFilteredRows textPrefixFilter false noColumnOptions "al"
        [rowC8parent] []).1 ≠ [] := by
  refine ⟨by decide, by decide, by decide, ?_⟩
  intro hcontra
  rw [show (getFilteredRows textPrefixFilter false noColumnOptions "al"
      [rowC8parent] []).1 = [getCloned rowC8parent [rowC8child]] from rfl]
    at hcontra
  exact List.noConfusion hcontra

/-- C8 (amended): for a row with no retained sub-rows (no sub-row list, or
its recursively filtered sub-rows are empty under the flag-false
configuration), whose only predicate-matching cell `cstar` — judged with
hiddenness ignored — sits on a column absent from the visible cell list:
with `includeHiddenColumns = false` the row is excluded, and with the flag
true it is included.  A parent with a passing descendant is kept regardless
of the flag, which is why the claim is restricted to rows with no retained
sub-rows. -/
theorem C8_hidden_column_rows (fn : String → String → Bool)
    (co : String → Option TableFilterColumnOptions) (fv : String)
    (i : String) (cfi cs : List BodyCell) (osub : Option (List BodyRow))
    (m m' : MatchMap) (cstar : BodyCell)
    (hsub : ∀ mm : MatchMap, (match osub with
      | some sub => (getFilteredRows fn false co fv sub mm).1 = []
      | none => True))
    (hmem : cstar ∈ cfi)
    (hmatch : cellPasses fn true co fv cs cstar = true)
    (hhid : ∀ c ∈ cs, c.id ≠ cstar.id)
    (honly : ∀ c ∈ cfi, c.id ≠ cstar.id → cellPasses fn true co fv cs c = false) :
    (getFilteredRows fn false co fv [BodyRow.mk i cfi cs osub] m).1 = []
    ∧ (getFilteredRows fn true co fv [BodyRow.mk i cfi cs osub] m').1
      = [(mapRowSubRows fn true co fv (BodyRow.mk i cfi cs osub) m').1] := by
  have hallfail : ∀ c ∈ cfi, cellPasses fn false co fv cs c = false := by
    intro c hc
    by_cases hcid : c.id = cstar.id
    · have hev : evaluableCell false co cs c = false :=
        evaluableCell_hidden_false co cs c (by
          intro cc hcc
          rw [hcid]
          exact hhid cc hcc)
      unfold cellPasses
      rw [hev]
      rfl
    · cases htf : cellPasses fn false co fv cs c with
      | false => rfl
      | true =>
        exfalso
        have hmono := cellPasses_mono fn co fv cs c htf
        rw [honly c hc hcid] at hmono
        cases hmono
  constructor
  · rw [getFilteredRows_fst, mapSubRows_cons]
    show ((mapRowSubRows fn false co fv (BodyRow.mk i cfi cs osub) m).1
      :: []).filter (rowKeepDecision fn false co fv) = []
    rw [List.filter_cons]
    have hkeep : rowKeepDecision fn false co fv
        (mapRowSubRows fn false co fv (BodyRow.mk i cfi cs osub) m).1 = false := by
      cases osub with
      | none =>
        show rowKeepDecision fn false co fv (BodyRow.mk i cfi cs none) = false
        unfold rowKeepDecision
        rw [if_neg (by simp [BodyRow.subRows])]
        exact rowSelfMatches_eq_false fn false co fv _ hallfail
      | some sub =>
        have hfs : (getFilteredRows fn false co fv sub m).1 = [] := hsub m
        show rowKeepDecision fn false co fv (BodyRow.mk i cfi cs
          (some (getFilteredRows fn false co fv sub m).1)) = false
        rw [hfs]
        unfold rowKeepDecision
        rw [if_neg (by simp [BodyRow.subRows])]
        exact rowSelfMatches_eq_false fn false co fv _ hallfail
    rw [hkeep]
    simp
  · rw [getFilteredRows_fst, mapSubRows_cons]
    show ((mapRowSubRows fn true co fv (BodyRow.mk i cfi cs osub) m').1
      :: []).filter (rowKeepDecision fn true co fv)
      = [(mapRowSubRows fn true co fv (BodyRow.mk i cfi cs osub) m').1]
    rw [List.filter_cons]
    have hkeep : rowKeepDecision fn true co fv
        (mapRowSubRows fn true co fv (BodyRow.mk i cfi cs osub) m').1 = true := by
      cases osub with
      | none =>
        show rowKeepDecision fn true co fv (BodyRow.mk i cfi cs none) = true
        apply keep_of_self
        exact rowSelfMatches_true_of fn true co fv _ cstar hmem hmatch
      | some sub =>
        show rowKeepDecision fn true co fv (BodyRow.mk i cfi cs
          (some (getFilteredRows fn true co fv sub m').1)) = true
        apply keep_of_self
        exact rowSelfMatches_true_of fn true co fv _ cstar hmem hmatch
    rw [hkeep]
    simp

theorem C8_witness :
    (getFilteredRows textPrefixFilter false noColumnOptions "al"
      [rowC8w] []).1 = []
    ∧ (getFilteredRows textPrefixFilter true noColumnOptions "al"
        [rowC8w] []).1
      = [(mapRowSubRows textPrefixFilter true noColumnOptions "al"
          rowC8w []).1] :=
  C8_hidden_column_rows textPrefixFilter noColumnOptions "al" "c8w"
    [BodyCell.data "a" "Alice", BodyCell.data "b" "Bob"]
    [BodyCell.data "b" "Bob"] none [] [] (BodyCell.data "a" "Alice")
    (fun _ => trivial) (by decide) (by decide) (by decide) (by decide)

/-! ## Claim C10: rows whose sub-rows are all filtered away -/

/-- C10: a row whose sub-rows are all removed by the recursive filter is
retained (as a clone with an empty sub-row list) iff one of its own cells
passes — exactly the same own-cell rule as a row that never had sub-rows,
which is the same `rowSelfMatches` value since it ignores `subRows`. -/
theorem C10_emptied_subrows (fn : String → String → Bool) (ihc : Bool)
    (co : String → Option TableFilterColumnOptions) (fv : String)
    (i : String) (cfi cs : List BodyCell) (sub : List BodyRow) (m : MatchMap)
    (hsub : (getFilteredRows fn ihc co fv sub m).1 = []) :
    ((getFilteredRows fn ihc co fv [BodyRow.mk i cfi cs (some sub)] m).1
      = if rowSelfMatches fn ihc co fv (BodyRow.mk i cfi cs (some sub)) = true
        then [getCloned (BodyRow.mk i cfi cs (some sub)) []]
        else [])
    ∧ (∀ m' : MatchMap,
        (getFilteredRows fn ihc co fv [BodyRow.mk i cfi cs none] m').1
          = if rowSelfMatches fn ihc co fv (BodyRow.mk i cfi cs none) = true
            then [BodyRow.mk i cfi cs none]
            else [])
    ∧ rowSelfMatches fn ihc co fv (BodyRow.mk i cfi cs (some sub))
      = rowSelfMatches fn ihc co fv (BodyRow.mk i cfi cs none) := by
  refine ⟨?_, ?_, rfl⟩
  · rw [getFilteredRows_fst, mapSubRows_cons]
    show ((BodyRow.mk i cfi cs (some (getFilteredRows fn ihc co fv sub m).1))
      :: []).filter (rowKeepDecision fn ihc co fv) = _
    rw [hsub, List.filter_cons]
    have hk : rowKeepDecision fn ihc co fv (BodyRow.mk i cfi cs (some []))
        = rowSelfMatches fn ihc co fv (BodyRow.mk i cfi cs (some [])) := by
      unfold rowKeepDecision
      rw [if_neg (by simp [BodyRow.subRows])]
    rw [hk]
    rw [show rowSelfMatches fn ihc co fv (BodyRow.mk i cfi cs (some []))
      = rowSelfMatches fn ihc co fv (BodyRow.mk i cfi cs (some sub)) from rfl]
    split <;> rfl
  · intro m'
    rw [getFilteredRows_fst, mapSubRows_cons]
    show ((BodyRow.mk i cfi cs none) :: []).filter
      (rowKeepDecision fn ihc co fv) = _
    rw [List.filter_cons]
    have hk : rowKeepDecision fn ihc co fv (BodyRow.mk i cfi cs none)
        = rowSelfMatches fn ihc co fv (BodyRow.mk i cfi cs none) := by
      unfold rowKeepDecision
      rw [if_neg (by simp [BodyRow.subRows])]
    rw [hk]
    split <;> rfl

theorem C10_witness :
    (getFilteredRows textPrefixFilter false noColumnOptions "al"
      [rowC10parent] []).1 = [getCloned rowC10parent []] := by
  have h := (C10_emptied_subrows textPrefixFilter false noColumnOptions "al"
    "c10p" [BodyCell.data "n" "Alf"] [BodyCell.data "n" "Alf"]
    [rowC10child] [] rfl).1
  rw [if_pos (by decide)] at h
  exact h

end SHT
